import Mathlib

/-!
Verification of the crawler core in `web-scraper.py` (repository chatGSPP).

The Python source is shallowly embedded: pure string helpers
(`sanitize_filename`, `get_domain_hyperlinks`, the whitespace normalization
`" ".join(text.split())`) become Lean functions on `String` / `List Char`;
the stateful crawl/worker loops become state-passing functions over an
explicit `CrawlState`, parameterized by a render oracle standing for the
out-of-scope Selenium collaborator, and emitting an explicit event trace for
the observable effects (render attempts, sleeps, file writes, enqueues,
log records).
-/

namespace WebScraper

/-- Characters treated as whitespace by Python `str.split()` (ASCII fragment;
the crawler only ever compares ASCII sentinel text). -/
def pyIsSpace (c : Char) : Bool :=
  c = ' ' || c = '\t' || c = '\n' || c = '\r' || c = '\x0b' || c = '\x0c'

/-- `text.split()` on a character list: maximal runs of non-whitespace
characters, with whitespace runs discarded (Python splits with no argument
drop empty fields).  `acc` is the word currently being read, reversed. -/
def wordsAux : List Char → List Char → List (List Char)
  | [], acc => if acc.isEmpty then [] else [acc.reverse]
  | c :: cs, acc =>
      if pyIsSpace c then
        if acc.isEmpty then wordsAux cs [] else acc.reverse :: wordsAux cs []
      else wordsAux cs (c :: acc)

/-- Python `text.split()` (whitespace words of a character list). -/
def pyWords (l : List Char) : List (List Char) := wordsAux l []

/-- Python `" ".join(ws)` on character lists. -/
def joinWords : List (List Char) → List Char
  | [] => []
  | [w] => w
  | w :: ws => w ++ ' ' :: joinWords ws

/-- `" ".join(text.split())` — the whitespace normalization the crawler
applies to extracted text (web-scraper.py line 221). -/
def normalizeWs (s : String) : String := ⟨joinWords (pyWords s.data)⟩

/-- Python substring test `pat in l` on character lists. -/
def hasSubList (pat l : List Char) : Bool :=
  (List.range (l.length + 1)).any fun i => pat.isPrefixOf (l.drop i)

/-- Python substring test `pat in s`. -/
def hasSub (pat s : String) : Bool := hasSubList pat.data s.data

/-- The character list of `"https://"`. -/
def httpsPre : List Char := ['h', 't', 't', 'p', 's', ':', '/', '/']

/-- The character list of `"http://"`. -/
def httpPre : List Char := ['h', 't', 't', 'p', ':', '/', '/']

/-- Python `url.rstrip('/')`: remove every trailing slash. -/
def rstripSlashes (l : List Char) : List Char :=
  (l.reverse.dropWhile (fun c => c = '/')).reverse

/-- `re.sub(r'^http[s]?://', '', url)`: remove one leading protocol. -/
def stripProto (l : List Char) : List Char :=
  if httpsPre.isPrefixOf l then l.drop 8
  else if httpPre.isPrefixOf l then l.drop 7
  else l

/-- ASCII fragment of the Python regex class `\w` (word character). -/
def pyIsWordChar (c : Char) : Bool := c.isAlphanum || c = '_'

/-- One step of `re.sub(r'[^\w\-_\. ]', '_', s)`. -/
def sanitizeChar (c : Char) : Char :=
  if pyIsWordChar c || c = '-' || c = '_' || c = '.' || c = ' ' then c else '_'

/-- `sanitize_filename` (web-scraper.py lines 135–147) on a character list:
rstrip trailing slashes, drop the protocol, cut at the first `?` and `#`,
replace the remaining special characters by underscores. -/
def sanitizeCore (l : List Char) : List Char :=
  (((stripProto (rstripSlashes l)).takeWhile (fun c => c ≠ '?')).takeWhile
      (fun c => c ≠ '#')).map sanitizeChar

/-- `sanitize_filename(url)` — the persistence identifier of a URL. -/
def sanitize_filename (url : String) : String := ⟨sanitizeCore url.data⟩

/-- Characters `urllib.parse.urlsplit` removes from a URL before parsing
(`_UNSAFE_URL_BYTES_TO_REMOVE`). -/
def badUrlChar (c : Char) : Bool := c = '\t' || c = '\r' || c = '\n'

/-- Characters ending the netloc component of a URL. -/
def netlocDelim (c : Char) : Bool := c = '/' || c = '?' || c = '#'

/-- The netloc of an already-sanitized URL: the run after the scheme up to
the first `/`, `?` or `#`. -/
def netlocOfClean (f : List Char) : List Char :=
  if httpsPre.isPrefixOf f then (f.drop 8).takeWhile (fun c => !netlocDelim c)
  else if httpPre.isPrefixOf f then (f.drop 7).takeWhile (fun c => !netlocDelim c)
  else []

/-- `urlparse(url).netloc` for `http(s)://` URLs — the only shape the crawler
ever parses (links are parsed only after matching `^http[s]?://.+$`, and the
root URL is `https://…`).  Other shapes yield `[]` here.  `urlsplit` first
removes tab, CR and LF characters. -/
def netlocCore (l : List Char) : List Char :=
  netlocOfClean (l.filter fun c => !badUrlChar c)

/-- `urlparse(url).netloc` at `String` level. -/
def pyNetloc (url : String) : String := ⟨netlocCore url.data⟩

/-- Does `r` satisfy `.+$` in Python `re.match` semantics after the protocol:
one or more non-newline characters, optionally followed by one final
newline. -/
def tailOfUrlMatch (r : List Char) : Bool :=
  let b := if r.getLast? = some '\n' then r.dropLast else r
  !b.isEmpty && b.all fun c => c ≠ '\n'

/-- `re.match(HTTP_URL_PATTERN, link)` where
`HTTP_URL_PATTERN = r'^http[s]?://.+$'` (web-scraper.py line 39). -/
def matchesHttpUrl (l : List Char) : Bool :=
  if httpsPre.isPrefixOf l then tailOfUrlMatch (l.drop 8)
  else if httpPre.isPrefixOf l then tailOfUrlMatch (l.drop 7)
  else false

/-- The trailing-slash normalization applied to each kept link
(web-scraper.py lines 181–183): `clean_link[:-1]` when it ends in `/`. -/
def stripSlashList (l : List Char) : List Char :=
  if l.getLast? = some '/' then l.dropLast else l

/-- The body of the `for link in hyperlinks:` loop of
`get_domain_hyperlinks` (web-scraper.py lines 164–183): `some` of the cleaned
link, or `none` when the link is discarded. -/
def processLink (d : List Char) (link : List Char) : Option (List Char) :=
  if matchesHttpUrl link then
    if netlocCore link = d then some (stripSlashList link) else none
  else if link.head? = some '/' then
    some (stripSlashList (httpsPre ++ d ++ link))
  else if ['#'].isPrefixOf link || ['m', 'a', 'i', 'l', 't', 'o', ':'].isPrefixOf link
      || ['t', 'e', 'l', ':'].isPrefixOf link then
    none
  else
    some (stripSlashList (httpsPre ++ d ++ '/' :: link))

/-- Insertion into the `clean_links` set, keeping first-insertion order
(Python set membership semantics: an element is added at most once). -/
def insertUniq (x : String) (l : List String) : List String :=
  if x ∈ l then l else l ++ [x]

/-- One iteration of the `for link in hyperlinks:` loop: add the cleaned
link to the accumulated `clean_links` set, if the link is kept. -/
def cleanStep (d : List Char) (acc : List String) (link : String) : List String :=
  match processLink d link.data with
  | some c => insertUniq ⟨c⟩ acc
  | none => acc

/-- `get_domain_hyperlinks(local_domain, hyperlinks)` (web-scraper.py
lines 159–186).  The Python version iterates a set and returns a list; the
iteration order is modelled by the input list order. -/
def get_domain_hyperlinks (local_domain : String) (hyperlinks : List String) :
    List String :=
  hyperlinks.foldl (cleanStep local_domain.data) []

/-- `MAX_RETRIES` (web-scraper.py line 66). -/
def MAX_RETRIES : Nat := 3

/-- `RETRY_DELAY` in seconds (web-scraper.py line 67). -/
def RETRY_DELAY : Nat := 2

/-- `CRAWL_DELAY` in seconds (web-scraper.py line 60). -/
def CRAWL_DELAY : Nat := 3

/-- `MAX_PAGES` (web-scraper.py line 57). -/
def MAX_PAGES : Nat := 100000000000

/-- `FULL_URL` (web-scraper.py line 43). -/
def FULL_URL : String := "https://gspp.berkeley.edu/"

/-- `LOCAL_DOMAIN = urlparse(FULL_URL).netloc` (web-scraper.py line 46). -/
def LOCAL_DOMAIN : String := pyNetloc FULL_URL

/-- `TEXT_DIR` (web-scraper.py line 49). -/
def TEXT_DIR : String := "text/" ++ LOCAL_DOMAIN ++ "/"

/-- `CSV_DIR` (web-scraper.py line 50). -/
def CSV_DIR : String := "ingested_data/"

/-- The JavaScript-requirement sentinel substring (web-scraper.py line 224). -/
def jsSentinel : String := "You need to enable JavaScript to run this app."

/-- The shared crawl state: the URL frontier (`url_queue`, FIFO), the dedup
set (`seen`, a managed dict whose keys are what matters), and the shared
progress counter (`pages_processed`). -/
structure CrawlState where
  queue : List String
  seen : List String
  pagesProcessed : Nat
deriving DecidableEq

/-- Outcome of one render attempt — the oracle standing for the Selenium
collaborator.  `ok` carries the extracted page text (`soup.get_text`) and the
raw href set (`extract_hyperlinks`), the two pure collaborator outputs.
`timeout` is `TimeoutException`, `transportError` is `WebDriverException`,
and `otherError` is any other exception raised while processing the attempt
(parse, extraction or persistence failure), which the source catches with a
generic `except Exception`. -/
inductive RenderResult
  | ok (rawText : String) (hrefs : List String)
  | timeout
  | transportError
  | otherError
deriving DecidableEq

/-- Final classification of one `crawl(url, …)` call. -/
inductive Outcome
  | success
  | unprocessable
  | failed
deriving DecidableEq

/-- Observable effects of the crawl, in program order. -/
inductive Event
  | attempt (url : String)
  | sleep (secs : Nat)
  | saveText (path text : String)
  | saveCsv (path url text : String)
  | enqueue (link : String)
  | logRetryTimeout (url : String) (n : Nat)
  | logRetryError (url : String) (n : Nat)
  | logUnexpected (url : String)
  | logFailed (url : String)
  | logSkippedJs (url : String)
  | dequeue (url : String)
deriving DecidableEq

/-- The shape of an event, collapsing the two retry-log records (timeout
vs. WebDriver error) into one `logRetry` shape. -/
inductive EKind
  | attempt
  | sleep (secs : Nat)
  | saveText
  | saveCsv
  | enqueue
  | logRetry
  | logUnexpected
  | logFailed
  | logSkippedJs
  | dequeue
deriving DecidableEq

/-- Kind of an event. -/
def Event.kind : Event → EKind
  | .attempt _ => .attempt
  | .sleep n => .sleep n
  | .saveText _ _ => .saveText
  | .saveCsv _ _ _ => .saveCsv
  | .enqueue _ => .enqueue
  | .logRetryTimeout _ _ => .logRetry
  | .logRetryError _ _ => .logRetry
  | .logUnexpected _ => .logUnexpected
  | .logFailed _ => .logFailed
  | .logSkippedJs _ => .logSkippedJs
  | .dequeue _ => .dequeue

/-- The enqueue step of `crawl` for one discovered link (web-scraper.py
lines 256–258): `if link not in seen: queue.put(link); seen[link] = True`.
Returns the emitted enqueue events and the new state. -/
def tryEnqueueEv (link : String) (s : CrawlState) : List Event × CrawlState :=
  if link ∈ s.seen then ([], s)
  else ([Event.enqueue link],
        { s with queue := s.queue ++ [link], seen := s.seen ++ [link] })

/-- The `for link in domain_links:` loop (web-scraper.py lines 255–259). -/
def enqueueLinks (links : List String) (s : CrawlState) : List Event × CrawlState :=
  match links with
  | [] => ([], s)
  | l :: ls =>
      let r₁ := tryEnqueueEv l s
      let r₂ := enqueueLinks ls r₁.2
      (r₁.1 ++ r₂.1, r₂.2)

/-- The `while retries < MAX_RETRIES` loop of `crawl` (web-scraper.py
lines 204–280).  The loop is translated on the remaining retry budget
(`budget = MAX_RETRIES - retries`, so the loop condition `retries <
MAX_RETRIES` fails exactly when the budget is `0`); `retries` is still
carried for the retry-log records.  `render` gives the outcome of each
attempt. -/
def crawlLoop (url : String) (render : Nat → RenderResult) :
    Nat → Nat → CrawlState → List Event × Outcome × CrawlState
  | 0, _, s => ([Event.logFailed url], Outcome.failed, s)
  | budget + 1, retries, s =>
      match render retries with
      | .ok rawText hrefs =>
          let cleaned := normalizeWs rawText
          if hasSub jsSentinel cleaned then
            ([Event.attempt url, Event.logSkippedJs url], Outcome.unprocessable, s)
          else
            let fid := sanitize_filename url
            let domainLinks := get_domain_hyperlinks LOCAL_DOMAIN hrefs
            let s₁ : CrawlState := { s with pagesProcessed := s.pagesProcessed + 1 }
            let r := enqueueLinks domainLinks s₁
            (Event.attempt url
              :: Event.saveText (TEXT_DIR ++ fid ++ ".txt") cleaned
              :: Event.saveCsv (CSV_DIR ++ fid ++ ".csv") url cleaned
              :: r.1 ++ [Event.sleep CRAWL_DELAY],
             Outcome.success, r.2)
      | .timeout =>
          let r := crawlLoop url render budget (retries + 1) s
          (Event.attempt url :: Event.logRetryTimeout url (retries + 1)
            :: Event.sleep RETRY_DELAY :: r.1, r.2.1, r.2.2)
      | .transportError =>
          let r := crawlLoop url render budget (retries + 1) s
          (Event.attempt url :: Event.logRetryError url (retries + 1)
            :: Event.sleep RETRY_DELAY :: r.1, r.2.1, r.2.2)
      | .otherError =>
          ([Event.attempt url, Event.logUnexpected url], Outcome.failed, s)

/-- `crawl(url, driver, queue, seen, pages_processed, log_queue)`
(web-scraper.py lines 192–280), starting with `retries = 0`. -/
def crawl (url : String) (render : Nat → RenderResult) (s : CrawlState) :
    List Event × Outcome × CrawlState :=
  crawlLoop url render MAX_RETRIES 0 s

/-- The `while True` loop of `worker` (web-scraper.py lines 304–321): dequeue
(an empty queue models the 5-second `Empty` timeout, breaking the loop),
break when `pages_processed >= MAX_PAGES` (the source checks this after the
dequeue, so the dequeued URL is consumed), otherwise crawl the URL and
continue.  `fuel` bounds the number of iterations (the source loops
unboundedly; every claim is about a finite prefix). -/
def workerRun (render : String → Nat → RenderResult) :
    Nat → CrawlState → List Event × CrawlState
  | 0, s => ([], s)
  | fuel + 1, s =>
      match s.queue with
      | [] => ([], s)
      | url :: rest =>
          if s.pagesProcessed ≥ MAX_PAGES then
            ([Event.dequeue url], { s with queue := rest })
          else
            let r := crawl url (render url) { s with queue := rest }
            let r₂ := workerRun render fuel r.2.2
            (Event.dequeue url :: r.1 ++ r₂.1, r₂.2)

/-- The initial state produced by `main`'s seeding (web-scraper.py
lines 334–347): the frontier holds `FULL_URL` and the dedup set is empty
(the source deliberately does not mark the seed as seen). -/
def initialState : CrawlState :=
  { queue := [FULL_URL], seen := [], pagesProcessed := 0 }

-- Concrete checks of the embedding on small inputs.
example :
    crawl "https://x.y/a" (fun _ => RenderResult.timeout)
      { queue := [], seen := [], pagesProcessed := 0 } =
    ([Event.attempt "https://x.y/a", Event.logRetryTimeout "https://x.y/a" 1,
      Event.sleep 2,
      Event.attempt "https://x.y/a", Event.logRetryTimeout "https://x.y/a" 2,
      Event.sleep 2,
      Event.attempt "https://x.y/a", Event.logRetryTimeout "https://x.y/a" 3,
      Event.sleep 2,
      Event.logFailed "https://x.y/a"],
     Outcome.failed, { queue := [], seen := [], pagesProcessed := 0 }) := by decide

example :
    crawl "https://x.y/a" (fun _ => RenderResult.ok jsSentinel ["https://x.y/b"])
      { queue := [], seen := [], pagesProcessed := 0 } =
    ([Event.attempt "https://x.y/a", Event.logSkippedJs "https://x.y/a"],
     Outcome.unprocessable, { queue := [], seen := [], pagesProcessed := 0 }) := by decide
example : normalizeWs "  a \t\n b  c " = "a b c" := by decide
example : sanitize_filename "https://gspp.berkeley.edu/programs/?q=1#x" =
    "gspp.berkeley.edu_programs_" := by decide
example : sanitize_filename "http://example.org/a" = "example.org_a" := by decide
example : pyNetloc "https://gspp.berkeley.edu/a/b?c" = "gspp.berkeley.edu" := by decide
example : get_domain_hyperlinks "example.org"
    ["https://example.org/a", "https://example.org/a/", "https://other.org/x"] =
    ["https://example.org/a"] := by decide
example : get_domain_hyperlinks "gspp.berkeley.edu" ["javascript:void(0)"] =
    ["https://gspp.berkeley.edu/javascript:void(0)"] := by decide
example : get_domain_hyperlinks "gspp.berkeley.edu" ["https://gspp.berkeley.edu//"] =
    ["https://gspp.berkeley.edu/"] := by decide
example : hasSub "bc" "abcd" = true := by decide
example : hasSub "bd" "abcd" = false := by decide


/-- C1: whenever the enqueue step of `crawl` is executed twice with the same
canonical URL (from any state whatsoever, hence from any state reachable from
`main`'s seeding), the second execution enqueues nothing and leaves the
frontier and the dedup set unchanged. -/
theorem claim_C1_enqueue_at_most_once (link : String) (s : CrawlState) :
    tryEnqueueEv link (tryEnqueueEv link s).2 = ([], (tryEnqueueEv link s).2) := by
  unfold tryEnqueueEv
  by_cases h : link ∈ s.seen
  · simp [h]
  · simp [h]

/-- C2 (counterexample): the normalization in `get_domain_hyperlinks` strips
only one trailing slash, so it is not a fixed point: the discovered link
`https://gspp.berkeley.edu//` is cleaned to `https://gspp.berkeley.edu/`, and
cleaning that output again changes it. -/
theorem claim_C2_cex :
    get_domain_hyperlinks "gspp.berkeley.edu" ["https://gspp.berkeley.edu//"] =
      ["https://gspp.berkeley.edu/"] ∧
    get_domain_hyperlinks "gspp.berkeley.edu" ["https://gspp.berkeley.edu/"] =
      ["https://gspp.berkeley.edu"] ∧
    ("https://gspp.berkeley.edu/" : String) ≠ "https://gspp.berkeley.edu" := by
  decide

/-- C2 (amended): the code normalization removes at most one trailing slash
(and keeps query string and fragment); it is a fixed point on every URL that
does not end in a double slash: for such URLs, applying the normalization to
its own output yields the same URL. -/
theorem claim_C2_amended (l : List Char) (h : ['/', '/'].isSuffixOf l = false) :
    stripSlashList (stripSlashList l) = stripSlashList l := by
  have h' : ¬ ((['/', '/'] : List Char) <:+ l) := by
    rw [← List.isSuffixOf_iff_suffix]
    simp [h]
  unfold stripSlashList
  by_cases h₁ : l.getLast? = some '/'
  · obtain ⟨m, rfl⟩ := List.getLast?_eq_some_iff.mp h₁
    rw [if_pos (List.getLast?_concat m), List.dropLast_concat]
    have h₂ : ¬ m.getLast? = some '/' := by
      intro hm
      obtain ⟨m', rfl⟩ := List.getLast?_eq_some_iff.mp hm
      exact h' ⟨m', by simp⟩
    rw [if_neg h₂]
  · rw [if_neg h₁, if_neg h₁]

/-- C2 amended, witnessed at a concrete single-slash URL. -/
theorem claim_C2_amended_witness :
    stripSlashList (stripSlashList ("https://gspp.berkeley.edu/a/").data) =
      stripSlashList ("https://gspp.berkeley.edu/a/").data :=
  claim_C2_amended ("https://gspp.berkeley.edu/a/").data (by decide)

/-- C3 (counterexample): `sanitize_filename` removes the protocol, so two
distinct URLs differing only in scheme receive the same identifier. -/
theorem claim_C3_cex :
    sanitize_filename "http://example.org/a" = sanitize_filename "https://example.org/a" ∧
    ("http://example.org/a" : String) ≠ "https://example.org/a" := by
  decide

/-- Helper: `rstrip('/')` of an appended list stops inside the right part as
soon as that part keeps a non-slash character. -/
theorem rstripSlashes_append (p b : List Char) (hb : ∃ c ∈ b, c ≠ '/') :
    rstripSlashes (p ++ b) = p ++ rstripSlashes b := by
  obtain ⟨c, hc, hcs⟩ := hb
  unfold rstripSlashes
  rw [List.reverse_append, List.dropWhile_append]
  have hne : ¬ (b.reverse.dropWhile (fun c => c = '/')).isEmpty = true := by
    rw [List.isEmpty_iff, List.dropWhile_eq_nil_iff]
    intro hall
    exact hcs (by simpa using hall c (List.mem_reverse.mpr hc))
  rw [if_neg hne, List.reverse_append, List.reverse_reverse]

/-- Helper: the protocol regex removes a literal leading `http://`. -/
theorem stripProto_http (r : List Char) :
    stripProto ('h' :: 't' :: 't' :: 'p' :: ':' :: '/' :: '/' :: r) = r := by
  have h1 : httpsPre.isPrefixOf ('h' :: 't' :: 't' :: 'p' :: ':' :: '/' :: '/' :: r) = false := rfl
  have h2 : httpPre.isPrefixOf ('h' :: 't' :: 't' :: 'p' :: ':' :: '/' :: '/' :: r) = true := by
    simp [httpPre, List.isPrefixOf]
  unfold stripProto
  rw [h1, h2]
  simp

/-- Helper: the protocol regex removes a literal leading `https://`. -/
theorem stripProto_https (r : List Char) :
    stripProto ('h' :: 't' :: 't' :: 'p' :: 's' :: ':' :: '/' :: '/' :: r) = r := by
  have h1 : httpsPre.isPrefixOf ('h' :: 't' :: 't' :: 'p' :: 's' :: ':' :: '/' :: '/' :: r) = true := by
    simp [httpsPre, List.isPrefixOf]
  unfold stripProto
  rw [h1]
  simp

/-- C3 (amended): `sanitize_filename` is deterministic (it is a pure function
of the URL), but it erases the scheme: for every URL body that is not made of
slashes alone, the `http://` and `https://` forms receive the *same*
identifier, so the collision-freedom demanded for scheme-differing URLs
fails. -/
theorem claim_C3_amended (b : String) (hb : ∃ c ∈ b.data, c ≠ '/') :
    sanitize_filename ("http://" ++ b) = sanitize_filename ("https://" ++ b) := by
  unfold sanitize_filename
  apply congrArg
  unfold sanitizeCore
  rw [String.data_append, String.data_append]
  have e1 : ("http://" : String).data = ['h', 't', 't', 'p', ':', '/', '/'] := rfl
  have e2 : ("https://" : String).data = ['h', 't', 't', 'p', 's', ':', '/', '/'] := rfl
  rw [e1, e2, rstripSlashes_append _ _ hb, rstripSlashes_append _ _ hb]
  rw [show ['h', 't', 't', 'p', ':', '/', '/'] ++ rstripSlashes b.data =
        'h' :: 't' :: 't' :: 'p' :: ':' :: '/' :: '/' :: rstripSlashes b.data from rfl]
  rw [show ['h', 't', 't', 'p', 's', ':', '/', '/'] ++ rstripSlashes b.data =
        'h' :: 't' :: 't' :: 'p' :: 's' :: ':' :: '/' :: '/' :: rstripSlashes b.data from rfl]
  rw [stripProto_http, stripProto_https]

/-- C3 amended, witnessed at a concrete URL body. -/
theorem claim_C3_amended_witness :
    sanitize_filename ("http://" ++ "example.org/a") =
      sanitize_filename ("https://" ++ "example.org/a") :=
  claim_C3_amended "example.org/a" (by decide)

/-- Helper: a link starting with `#`, `mailto:` or `tel:` is discarded by the
link-cleaning loop. -/
theorem processLink_excluded (d : List Char) (l : List Char)
    (h : ['#'].isPrefixOf l || ['m', 'a', 'i', 'l', 't', 'o', ':'].isPrefixOf l
        || ['t', 'e', 'l', ':'].isPrefixOf l) :
    processLink d l = none := by
  rcases Bool.or_eq_true_iff.mp h with h' | htel
  · rcases Bool.or_eq_true_iff.mp h' with hhash | hmail
    · obtain ⟨t, rfl⟩ := List.isPrefixOf_iff_prefix.mp hhash
      have h1 : matchesHttpUrl ('#' :: t) = false := rfl
      simp [processLink, h1, List.isPrefixOf]
    · obtain ⟨t, rfl⟩ := List.isPrefixOf_iff_prefix.mp hmail
      have h1 : matchesHttpUrl ('m' :: 'a' :: 'i' :: 'l' :: 't' :: 'o' :: ':' :: t) = false := rfl
      simp [processLink, h1, List.isPrefixOf]
  · obtain ⟨t, rfl⟩ := List.isPrefixOf_iff_prefix.mp htel
    have h1 : matchesHttpUrl ('t' :: 'e' :: 'l' :: ':' :: t) = false := rfl
    simp [processLink, h1, List.isPrefixOf]

/-- C6: `get_domain_hyperlinks` keeps only same-domain candidates with the
trailing slash normalized, and discards `mailto:`, `tel:` and in-page
fragment links; on the scenario domain `example.org` with links
`https://example.org/a`, `https://example.org/a/` and the external
`https://other.org/x` it returns exactly the single candidate
`https://example.org/a`. -/
theorem claim_C6_domain_hyperlinks :
    get_domain_hyperlinks "example.org"
        ["https://example.org/a", "https://example.org/a/", "https://other.org/x"] =
      ["https://example.org/a"] ∧
    ∀ (d l : String),
      (['#'].isPrefixOf l.data || ['m', 'a', 'i', 'l', 't', 'o', ':'].isPrefixOf l.data
          || ['t', 'e', 'l', ':'].isPrefixOf l.data) →
      get_domain_hyperlinks d [l] = [] := by
  constructor
  · decide
  · intro d l h
    unfold get_domain_hyperlinks
    simp [List.foldl, cleanStep, processLink_excluded d.data l.data h]

/-- C6, witnessed: a `mailto:` link yields no candidate at all. -/
theorem claim_C6_witness :
    get_domain_hyperlinks "example.org" ["mailto:admin@example.org"] = [] :=
  claim_C6_domain_hyperlinks.2 "example.org" "mailto:admin@example.org" (by decide)

/-- No two adjacent whitespace characters. -/
def noDoubleSpace : List Char → Bool
  | c :: b :: t => !(pyIsSpace c && pyIsSpace b) && noDoubleSpace (b :: t)
  | _ => true

/-- Every whitespace character is a plain space. -/
def allWsSingleSpace (l : List Char) : Bool := l.all fun c => !pyIsSpace c || c = ' '

/-- Neither the first nor the last character is whitespace. -/
def noEdgeWs (l : List Char) : Bool :=
  (match l.head? with
   | none => true
   | some c => !pyIsSpace c) &&
  (match l.getLast? with
   | none => true
   | some c => !pyIsSpace c)

/-- Helper: `wordsAux` swallows a leading non-whitespace run into the
accumulator. -/
theorem wordsAux_word (w : List Char) (hw : ∀ c ∈ w, pyIsSpace c = false) :
    ∀ t acc, wordsAux (w ++ t) acc = wordsAux t (w.reverse ++ acc) := by
  induction w with
  | nil => intro t acc; simp
  | cons c w ih =>
      intro t acc
      have hc : pyIsSpace c = false := hw c (by simp)
      have hw' : ∀ x ∈ w, pyIsSpace x = false := fun x hx => hw x (by simp [hx])
      simp only [List.cons_append, wordsAux, hc, Bool.false_eq_true, if_false]
      rw [show w.append t = w ++ t from rfl, ih hw' t (c :: acc)]
      simp

/-- Helper: every word produced by `wordsAux` is nonempty and free of
whitespace, provided the accumulator is. -/
theorem wordsAux_sound :
    ∀ (l acc : List Char), (∀ c ∈ acc, pyIsSpace c = false) →
      ∀ w ∈ wordsAux l acc, w ≠ [] ∧ ∀ c ∈ w, pyIsSpace c = false := by
  intro l
  induction l with
  | nil =>
      intro acc hacc w hw
      by_cases he : acc.isEmpty
      · simp [wordsAux, he] at hw
      · simp [wordsAux, he] at hw
        subst hw
        refine ⟨by simpa [List.isEmpty_iff] using he, ?_⟩
        intro c hc
        exact hacc c (List.mem_reverse.mp hc)
  | cons c cs ih =>
      intro acc hacc w hw
      by_cases hc : pyIsSpace c
      · by_cases he : acc.isEmpty
        · simp only [wordsAux, hc, if_true, he] at hw
          exact ih [] (by simp) w hw
        · simp only [wordsAux, hc, if_true, he, Bool.false_eq_true, if_false,
            List.mem_cons] at hw
          rcases hw with rfl | hw
          · refine ⟨by simpa [List.isEmpty_iff] using he, ?_⟩
            intro x hx
            exact hacc x (List.mem_reverse.mp hx)
          · exact ih [] (by simp) w hw
      · simp only [wordsAux, hc, Bool.false_eq_true, if_false] at hw
        refine ih (c :: acc) ?_ w hw
        intro x hx
        rcases List.mem_cons.mp hx with rfl | hx
        · simpa using hc
        · exact hacc x hx

/-- Helper: each word list is of the form `w ++ rest` once joined. -/
theorem joinWords_cons (w : List Char) (ws : List (List Char)) :
    ∃ X, joinWords (w :: ws) = w ++ X := by
  cases ws with
  | nil => exact ⟨[], by simp [joinWords]⟩
  | cons v vs => exact ⟨' ' :: joinWords (v :: vs), rfl⟩

/-- Helper: splitting the join of whitespace-free nonempty words recovers
exactly the words. -/
theorem pyWords_joinWords :
    ∀ W : List (List Char),
      (∀ w ∈ W, w ≠ [] ∧ ∀ c ∈ w, pyIsSpace c = false) →
      pyWords (joinWords W) = W := by
  intro W
  induction W with
  | nil => intro _; rfl
  | cons w ws ih =>
      intro hW
      obtain ⟨hw, hwc⟩ := hW w (by simp)
      cases ws with
      | nil =>
          show wordsAux (joinWords [w]) [] = [w]
          have : joinWords [w] = w ++ [] := by simp [joinWords]
          rw [this, wordsAux_word w hwc [] []]
          have hwr : ¬ w.reverse.isEmpty = true := by
            simpa [List.isEmpty_iff] using hw
          simp [wordsAux, hwr]
      | cons v vs =>
          show wordsAux (joinWords (w :: v :: vs)) [] = w :: v :: vs
          have hj : joinWords (w :: v :: vs) = w ++ ' ' :: joinWords (v :: vs) := rfl
          rw [hj, wordsAux_word w hwc (' ' :: joinWords (v :: vs)) []]
          have hsp : pyIsSpace ' ' = true := rfl
          have hwr : ¬ w.reverse.isEmpty = true := by
            simpa [List.isEmpty_iff] using hw
          simp only [wordsAux, hsp, if_true, List.append_nil, hwr,
            Bool.false_eq_true, if_false, List.reverse_reverse]
          have hrest : ∀ x ∈ v :: vs, x ≠ [] ∧ ∀ c ∈ x, pyIsSpace c = false :=
            fun x hx => hW x (by simp [hx])
          have := ih hrest
          rw [show wordsAux (joinWords (v :: vs)) [] = pyWords (joinWords (v :: vs)) from rfl,
            this]

/-- Helper: words of the output of the normalization are whitespace-free and
nonempty. -/
theorem pyWords_sound (l : List Char) :
    ∀ w ∈ pyWords l, w ≠ [] ∧ ∀ c ∈ w, pyIsSpace c = false :=
  wordsAux_sound l [] (by simp)

/-- The normalization `" ".join(text.split())` is idempotent. -/
theorem normalizeWs_idem (s : String) : normalizeWs (normalizeWs s) = normalizeWs s := by
  unfold normalizeWs
  apply congrArg
  apply congrArg
  exact pyWords_joinWords (pyWords s.data) (pyWords_sound s.data)

/-- Helper: prepending a non-whitespace character preserves
`noDoubleSpace`. -/
theorem noDoubleSpace_cons (c : Char) (rest : List Char)
    (hc : pyIsSpace c = false) (hr : noDoubleSpace rest = true) :
    noDoubleSpace (c :: rest) = true := by
  cases rest with
  | nil => rfl
  | cons b t => simp [noDoubleSpace, hc, hr]

/-- Helper: a whitespace-free run can be prepended to any `noDoubleSpace`
list. -/
theorem noDoubleSpace_append (w r : List Char)
    (hw : ∀ c ∈ w, pyIsSpace c = false) (hr : noDoubleSpace r = true) :
    noDoubleSpace (w ++ r) = true := by
  induction w with
  | nil => simpa using hr
  | cons c cs ih =>
      have hc : pyIsSpace c = false := hw c (by simp)
      have ih' := ih fun x hx => hw x (by simp [hx])
      simpa using noDoubleSpace_cons c (cs ++ r) hc ih'

/-- Helper: the join of a nonempty word list starts with a non-whitespace
character. -/
theorem joinWords_head (w : List Char) (ws : List (List Char))
    (hw : w ≠ []) (hwc : ∀ c ∈ w, pyIsSpace c = false) :
    ∃ c r, joinWords (w :: ws) = c :: r ∧ pyIsSpace c = false := by
  obtain ⟨X, hX⟩ := joinWords_cons w ws
  cases w with
  | nil => exact absurd rfl hw
  | cons c w' => exact ⟨c, w' ++ X, by simpa using hX, hwc c (by simp)⟩

/-- Helper: the join of whitespace-free words has no two adjacent whitespace
characters. -/
theorem joinWords_noDoubleSpace :
    ∀ W : List (List Char),
      (∀ w ∈ W, w ≠ [] ∧ ∀ c ∈ w, pyIsSpace c = false) →
      noDoubleSpace (joinWords W) = true := by
  intro W
  induction W with
  | nil => intro _; rfl
  | cons w ws ih =>
      intro hW
      obtain ⟨hw, hwc⟩ := hW w (by simp)
      cases ws with
      | nil =>
          have : joinWords [w] = w ++ [] := by simp [joinWords]
          rw [this]
          exact noDoubleSpace_append w [] hwc rfl
      | cons v vs =>
          have hj : joinWords (w :: v :: vs) = w ++ ' ' :: joinWords (v :: vs) := rfl
          rw [hj]
          apply noDoubleSpace_append w _ hwc
          obtain ⟨hv, hvc⟩ := hW v (by simp)
          obtain ⟨c, r, hcr, hc⟩ := joinWords_head v vs hv hvc
          have hrest : ∀ x ∈ v :: vs, x ≠ [] ∧ ∀ y ∈ x, pyIsSpace y = false :=
            fun x hx => hW x (by simp [hx])
          have hnd := ih hrest
          rw [hcr] at hnd ⊢
          simp [noDoubleSpace, hc, hnd]

/-- Helper: in the join of whitespace-free words, every whitespace character
is the single separator space. -/
theorem joinWords_allWsSingleSpace :
    ∀ W : List (List Char),
      (∀ w ∈ W, ∀ c ∈ w, pyIsSpace c = false) →
      allWsSingleSpace (joinWords W) = true := by
  intro W
  induction W with
  | nil => intro _; rfl
  | cons w ws ih =>
      intro hW
      cases ws with
      | nil =>
          have : joinWords [w] = w := by simp [joinWords]
          rw [this]
          unfold allWsSingleSpace
          rw [List.all_eq_true]
          intro c hc
          simp [hW w (by simp) c hc]
      | cons v vs =>
          have hj : joinWords (w :: v :: vs) = w ++ ' ' :: joinWords (v :: vs) := rfl
          rw [hj]
          unfold allWsSingleSpace
          rw [List.all_eq_true]
          intro c hc
          rcases List.mem_append.mp hc with hcw | hcr
          · simp [hW w (by simp) c hcw]
          · rcases List.mem_cons.mp hcr with rfl | hcj
            · simp
            · have := ih (fun x hx => hW x (by simp [hx]))
              unfold allWsSingleSpace at this
              rw [List.all_eq_true] at this
              exact this c hcj

/-- Helper: the join of nonempty whitespace-free words ends with a
non-whitespace character. -/
theorem joinWords_getLast :
    ∀ W : List (List Char),
      (∀ w ∈ W, w ≠ [] ∧ ∀ c ∈ w, pyIsSpace c = false) → W ≠ [] →
      ∃ c, (joinWords W).getLast? = some c ∧ pyIsSpace c = false := by
  intro W
  induction W with
  | nil => intro _ h; exact absurd rfl h
  | cons w ws ih =>
      intro hW _
      obtain ⟨hw, hwc⟩ := hW w (by simp)
      cases ws with
      | nil =>
          have hj : joinWords [w] = w := by simp [joinWords]
          refine ⟨w.getLast hw, ?_, hwc _ (List.getLast_mem hw)⟩
          rw [hj, List.getLast?_eq_getLast w hw]
      | cons v vs =>
          obtain ⟨c, hc, hcs⟩ := ih (fun x hx => hW x (by simp [hx])) (by simp)
          refine ⟨c, ?_, hcs⟩
          have hj : joinWords (w :: v :: vs) = w ++ ' ' :: joinWords (v :: vs) := rfl
          rw [hj, List.getLast?_append]
          have : (' ' :: joinWords (v :: vs)).getLast? = some c := by
            rw [show ' ' :: joinWords (v :: vs) = [' '] ++ joinWords (v :: vs) from rfl,
              List.getLast?_append, hc]
            rfl
          rw [this]
          rfl

/-- The normalized text has no leading or trailing whitespace, no two
adjacent whitespace characters, and only plain spaces as whitespace. -/
theorem normalizeWs_shape (s : String) :
    noDoubleSpace (normalizeWs s).data = true ∧
    allWsSingleSpace (normalizeWs s).data = true ∧
    noEdgeWs (normalizeWs s).data = true := by
  have hW := pyWords_sound s.data
  have hdata : (normalizeWs s).data = joinWords (pyWords s.data) := rfl
  refine ⟨?_, ?_, ?_⟩
  · rw [hdata]; exact joinWords_noDoubleSpace _ hW
  · rw [hdata]; exact joinWords_allWsSingleSpace _ (fun w hw => (hW w hw).2)
  · rw [hdata]
    unfold noEdgeWs
    cases hP : pyWords s.data with
    | nil => rfl
    | cons w ws =>
        obtain ⟨hw, hwc⟩ := hW w (by simp [hP])
        obtain ⟨c, r, hcr, hc⟩ := joinWords_head w ws hw hwc
        obtain ⟨e, he, hes⟩ := joinWords_getLast (w :: ws)
          (fun x hx => hW x (by simp [hP, hx])) (by simp)
        rw [hcr]
        rw [hcr] at he
        simp only [List.head?_cons, he, hc, hes]
        rfl

/-- C5: when the whitespace-normalized extracted text contains the
JavaScript sentinel, `crawl` classifies the page unprocessable on the first
attempt and changes nothing: no retry, no file or CSV write, no link
extraction or enqueue, and the frontier, dedup set and progress counter keep
their prior values. -/
theorem claim_C5_sentinel_skip (url : String) (render : Nat → RenderResult)
    (s : CrawlState) (raw : String) (hrefs : List String)
    (h0 : render 0 = RenderResult.ok raw hrefs)
    (hs : hasSub jsSentinel (normalizeWs raw) = true) :
    crawl url render s =
      ([Event.attempt url, Event.logSkippedJs url], Outcome.unprocessable, s) := by
  unfold crawl
  simp [crawlLoop, MAX_RETRIES, h0, hs]

/-- C5, witnessed on a page whose text is exactly the sentinel. -/
theorem claim_C5_witness :
    crawl "https://gspp.berkeley.edu/app"
        (fun _ => RenderResult.ok jsSentinel ["https://gspp.berkeley.edu/x"])
        initialState =
      ([Event.attempt "https://gspp.berkeley.edu/app",
        Event.logSkippedJs "https://gspp.berkeley.edu/app"],
       Outcome.unprocessable, initialState) :=
  claim_C5_sentinel_skip "https://gspp.berkeley.edu/app" _ initialState
    jsSentinel ["https://gspp.berkeley.edu/x"] rfl (by decide)

/-- C4: when every attempt raises a timeout or a WebDriver transport error,
`crawl` makes exactly `MAX_RETRIES = 3` render attempts with a
`RETRY_DELAY = 2` second sleep after each, then logs the failure exactly
once; nothing is persisted, nothing is enqueued, and the state (frontier,
dedup set, counter) is returned unchanged, so the URL is never re-enqueued. -/
theorem claim_C4_retry_exhaustion (url : String) (render : Nat → RenderResult)
    (s : CrawlState)
    (h : ∀ n, render n = RenderResult.timeout ∨ render n = RenderResult.transportError) :
    (crawl url render s).1.map Event.kind =
      [EKind.attempt, EKind.logRetry, EKind.sleep 2,
       EKind.attempt, EKind.logRetry, EKind.sleep 2,
       EKind.attempt, EKind.logRetry, EKind.sleep 2,
       EKind.logFailed] ∧
    (crawl url render s).2.1 = Outcome.failed ∧
    (crawl url render s).2.2 = s := by
  unfold crawl
  rcases h 0 with h0 | h0 <;> rcases h 1 with h1 | h1 <;> rcases h 2 with h2 | h2 <;>
    simp [crawlLoop, MAX_RETRIES, RETRY_DELAY, h0, h1, h2, Event.kind]

/-- C4, witnessed on a render oracle that always times out. -/
theorem claim_C4_witness :
    (crawl "https://gspp.berkeley.edu/slow" (fun _ => RenderResult.timeout)
        initialState).1.map Event.kind =
      [EKind.attempt, EKind.logRetry, EKind.sleep 2,
       EKind.attempt, EKind.logRetry, EKind.sleep 2,
       EKind.attempt, EKind.logRetry, EKind.sleep 2,
       EKind.logFailed] ∧
    (crawl "https://gspp.berkeley.edu/slow" (fun _ => RenderResult.timeout)
        initialState).2.1 = Outcome.failed ∧
    (crawl "https://gspp.berkeley.edu/slow" (fun _ => RenderResult.timeout)
        initialState).2.2 = initialState :=
  claim_C4_retry_exhaustion "https://gspp.berkeley.edu/slow" _ initialState
    (fun _ => Or.inl rfl)

/-- C7: an exception that is neither a timeout nor a WebDriver transport
error aborts the URL immediately — a single render attempt, a `failed`
outcome, state untouched — and the worker loop then continues with the rest
of the queue exactly as if the failed URL had never been dequeued. -/
theorem claim_C7_nontransient_skip (u : String) (render : String → Nat → RenderResult)
    (q rest : List String) (seen : List String) (pages : Nat) (fuel : Nat)
    (h : ∀ n, render u n = RenderResult.otherError)
    (hq : q = u :: rest)
    (hp : pages < MAX_PAGES) :
    crawl u (render u) { queue := rest, seen := seen, pagesProcessed := pages } =
      ([Event.attempt u, Event.logUnexpected u], Outcome.failed,
       { queue := rest, seen := seen, pagesProcessed := pages }) ∧
    workerRun render (fuel + 1) { queue := q, seen := seen, pagesProcessed := pages } =
      (Event.dequeue u :: Event.attempt u :: Event.logUnexpected u ::
         (workerRun render fuel
            { queue := rest, seen := seen, pagesProcessed := pages }).1,
       (workerRun render fuel
          { queue := rest, seen := seen, pagesProcessed := pages }).2) := by
  subst hq
  have hcrawl : crawl u (render u) { queue := rest, seen := seen, pagesProcessed := pages } =
      ([Event.attempt u, Event.logUnexpected u], Outcome.failed,
       { queue := rest, seen := seen, pagesProcessed := pages }) := by
    unfold crawl
    simp [crawlLoop, MAX_RETRIES, h 0]
  refine ⟨hcrawl, ?_⟩
  simp only [workerRun]
  rw [if_neg (Nat.not_le.mpr hp), hcrawl]
  simp

/-- A render oracle whose `bad` URL raises a non-transient exception. -/
def renderBad (u : String) (_ : Nat) : RenderResult :=
  if u = "https://gspp.berkeley.edu/bad" then RenderResult.otherError
  else RenderResult.timeout

/-- C7, witnessed: the worker dequeues and processes the second URL after the
first one fails non-transiently. -/
theorem claim_C7_witness :
    crawl "https://gspp.berkeley.edu/bad" (renderBad "https://gspp.berkeley.edu/bad")
        { queue := ["https://gspp.berkeley.edu/next"], seen := [], pagesProcessed := 0 } =
      ([Event.attempt "https://gspp.berkeley.edu/bad",
        Event.logUnexpected "https://gspp.berkeley.edu/bad"], Outcome.failed,
       { queue := ["https://gspp.berkeley.edu/next"], seen := [], pagesProcessed := 0 }) ∧
    workerRun renderBad (1 + 1)
        { queue := ["https://gspp.berkeley.edu/bad", "https://gspp.berkeley.edu/next"],
          seen := [], pagesProcessed := 0 } =
      (Event.dequeue "https://gspp.berkeley.edu/bad"
         :: Event.attempt "https://gspp.berkeley.edu/bad"
         :: Event.logUnexpected "https://gspp.berkeley.edu/bad"
         :: (workerRun renderBad 1
              { queue := ["https://gspp.berkeley.edu/next"], seen := [],
                pagesProcessed := 0 }).1,
       (workerRun renderBad 1
          { queue := ["https://gspp.berkeley.edu/next"], seen := [],
            pagesProcessed := 0 }).2) :=
  claim_C7_nontransient_skip "https://gspp.berkeley.edu/bad" renderBad
    ["https://gspp.berkeley.edu/bad", "https://gspp.berkeley.edu/next"]
    ["https://gspp.berkeley.edu/next"] [] 0 1 (fun _ => by simp [renderBad]) rfl (by decide)

/-- C8: on a successful render that does not trip the sentinel, the text
persisted to both the text file and the CSV record is exactly the
whitespace-normalization `" ".join(text.split())` of the extracted text; the
normalization is idempotent, leaves no doubled whitespace, turns every
whitespace character into a single plain space, and leaves no leading or
trailing whitespace. -/
theorem claim_C8_persisted_text (url : String) (render : Nat → RenderResult)
    (s : CrawlState) (raw : String) (hrefs : List String)
    (h0 : render 0 = RenderResult.ok raw hrefs)
    (hs : hasSub jsSentinel (normalizeWs raw) = false) :
    (∃ evs, (crawl url render s).1 =
        Event.attempt url
          :: Event.saveText (TEXT_DIR ++ sanitize_filename url ++ ".txt") (normalizeWs raw)
          :: Event.saveCsv (CSV_DIR ++ sanitize_filename url ++ ".csv") url (normalizeWs raw)
          :: evs) ∧
    normalizeWs (normalizeWs raw) = normalizeWs raw ∧
    noDoubleSpace (normalizeWs raw).data = true ∧
    allWsSingleSpace (normalizeWs raw).data = true ∧
    noEdgeWs (normalizeWs raw).data = true := by
  refine ⟨?_, normalizeWs_idem raw, (normalizeWs_shape raw).1,
    (normalizeWs_shape raw).2.1, (normalizeWs_shape raw).2.2⟩
  unfold crawl
  simp [crawlLoop, MAX_RETRIES, h0, hs]

/-- C8, witnessed on a concrete messy extracted text. -/
theorem claim_C8_witness :
    (∃ evs, (crawl "https://gspp.berkeley.edu/about"
        (fun _ => RenderResult.ok "  Goldman  School \n of\tPublic   Policy " [])
        initialState).1 =
        Event.attempt "https://gspp.berkeley.edu/about"
          :: Event.saveText
              (TEXT_DIR ++ sanitize_filename "https://gspp.berkeley.edu/about" ++ ".txt")
              (normalizeWs "  Goldman  School \n of\tPublic   Policy ")
          :: Event.saveCsv
              (CSV_DIR ++ sanitize_filename "https://gspp.berkeley.edu/about" ++ ".csv")
              "https://gspp.berkeley.edu/about"
              (normalizeWs "  Goldman  School \n of\tPublic   Policy ")
          :: evs) ∧
    normalizeWs (normalizeWs "  Goldman  School \n of\tPublic   Policy ") =
      normalizeWs "  Goldman  School \n of\tPublic   Policy " ∧
    noDoubleSpace (normalizeWs "  Goldman  School \n of\tPublic   Policy ").data = true ∧
    allWsSingleSpace (normalizeWs "  Goldman  School \n of\tPublic   Policy ").data = true ∧
    noEdgeWs (normalizeWs "  Goldman  School \n of\tPublic   Policy ").data = true :=
  claim_C8_persisted_text "https://gspp.berkeley.edu/about" _ initialState
    "  Goldman  School \n of\tPublic   Policy " [] rfl (by decide)

/-- Helper: one enqueue step never changes the progress counter. -/
theorem tryEnqueueEv_pages (link : String) (s : CrawlState) :
    (tryEnqueueEv link s).2.pagesProcessed = s.pagesProcessed := by
  unfold tryEnqueueEv
  by_cases h : link ∈ s.seen <;> simp [h]

/-- Helper: the enqueue loop never changes the progress counter. -/
theorem enqueueLinks_pages :
    ∀ (links : List String) (s : CrawlState),
      (enqueueLinks links s).2.pagesProcessed = s.pagesProcessed := by
  intro links
  induction links with
  | nil => intro s; rfl
  | cons l ls ih =>
      intro s
      show (enqueueLinks ls (tryEnqueueEv l s).2).2.pagesProcessed = s.pagesProcessed
      rw [ih (tryEnqueueEv l s).2, tryEnqueueEv_pages]

/-- Helper: the retry loop increments the progress counter exactly on a
successful outcome, and otherwise leaves it unchanged. -/
theorem crawlLoop_pages (url : String) (render : Nat → RenderResult) :
    ∀ (budget retries : Nat) (s : CrawlState),
      (crawlLoop url render budget retries s).2.2.pagesProcessed =
        s.pagesProcessed +
          (if (crawlLoop url render budget retries s).2.1 = Outcome.success then 1
           else 0) := by
  intro budget
  induction budget with
  | zero => intro retries s; simp [crawlLoop]
  | succ b ih =>
      intro retries s
      cases hr : render retries with
      | ok raw hrefs =>
          by_cases hsub : hasSub jsSentinel (normalizeWs raw) = true
          · simp [crawlLoop, hr, hsub]
          · simp [crawlLoop, hr, hsub, enqueueLinks_pages]
      | timeout => simpa [crawlLoop, hr] using ih (retries + 1) s
      | transportError => simpa [crawlLoop, hr] using ih (retries + 1) s
      | otherError => simp [crawlLoop, hr]

/-- Helper: a worker run never decreases the progress counter. -/
theorem workerRun_pages_mono (render : String → Nat → RenderResult) :
    ∀ (fuel : Nat) (s : CrawlState),
      s.pagesProcessed ≤ (workerRun render fuel s).2.pagesProcessed := by
  intro fuel
  induction fuel with
  | zero => intro s; simp [workerRun]
  | succ f ih =>
      intro s
      obtain ⟨q, seen, pages⟩ := s
      cases q with
      | nil => simp [workerRun]
      | cons u rest =>
          by_cases hp : MAX_PAGES ≤ pages
          · simp [workerRun, hp]
          · simp only [workerRun]
            rw [if_neg hp]
            refine le_trans ?_ (ih _)
            show pages ≤ (crawl u (render u)
              { queue := rest, seen := seen, pagesProcessed := pages }).2.2.pagesProcessed
            unfold crawl
            rw [crawlLoop_pages]
            exact Nat.le_add_right _ _

/-- C9: the progress counter is monotonically non-decreasing — `crawl`
increments it by exactly one on a successful outcome and leaves it unchanged
on a failed or unprocessable outcome, and no worker step ever decreases
it. -/
theorem claim_C9_counter_monotone :
    (∀ (url : String) (render : Nat → RenderResult) (s : CrawlState),
       (crawl url render s).2.2.pagesProcessed =
         s.pagesProcessed +
           (if (crawl url render s).2.1 = Outcome.success then 1 else 0)) ∧
    (∀ (render : String → Nat → RenderResult) (fuel : Nat) (s : CrawlState),
       s.pagesProcessed ≤ (workerRun render fuel s).2.pagesProcessed) :=
  ⟨fun url render s => crawlLoop_pages url render MAX_RETRIES 0 s,
   fun render fuel s => workerRun_pages_mono render fuel s⟩

/-- Helper: `takeWhile` over non-delimiters is unchanged by a trailing
slash. -/
theorem takeWhile_concat_slash (xs : List Char) :
    (xs ++ ['/']).takeWhile (fun c => !netlocDelim c) =
      xs.takeWhile (fun c => !netlocDelim c) := by
  induction xs with
  | nil => rfl
  | cons c cs ih =>
      by_cases hc : (!netlocDelim c) = true
      · simp only [List.cons_append, List.takeWhile_cons, hc, if_true]
        rw [ih]
      · simp only [List.cons_append, List.takeWhile_cons, hc, Bool.false_eq_true, if_false]

/-- Helper: a Boolean prefix extends over a trailing element. -/
theorem isPrefixOf_concat_of (p A : List Char) (c : Char)
    (h : p.isPrefixOf A = true) : p.isPrefixOf (A ++ [c]) = true := by
  rw [List.isPrefixOf_iff_prefix] at h ⊢
  exact h.trans (List.prefix_append A [c])

/-- Helper: a Boolean prefix of `A ++ [c]` that fits inside `A` is a prefix
of `A`. -/
theorem isPrefixOf_of_concat (p A : List Char) (c : Char)
    (hlen : p.length ≤ A.length)
    (h : p.isPrefixOf (A ++ [c]) = true) : p.isPrefixOf A = true := by
  rw [List.isPrefixOf_iff_prefix] at h ⊢
  have := List.prefix_iff_eq_take.mp h
  rw [List.take_append_eq_append_take, Nat.sub_eq_zero_of_le hlen, List.take_zero,
    List.append_nil] at this
  rw [List.prefix_iff_eq_take]
  exact this

/-- Helper: the netloc of a sanitized URL is unchanged by a trailing
slash. -/
theorem netlocOfClean_concat_slash (A : List Char) :
    netlocOfClean (A ++ ['/']) = netlocOfClean A := by
  unfold netlocOfClean
  by_cases h8 : httpsPre.isPrefixOf A = true
  · rw [if_pos h8, if_pos (isPrefixOf_concat_of _ _ _ h8)]
    have hlen : 8 ≤ A.length := by
      have := (List.isPrefixOf_iff_prefix.mp h8).length_le
      simpa [httpsPre] using this
    rw [List.drop_append_eq_append_drop, Nat.sub_eq_zero_of_le hlen]
    rw [show List.drop 0 ['/'] = ['/'] from rfl, takeWhile_concat_slash]
  · by_cases h8' : httpsPre.isPrefixOf (A ++ ['/']) = true
    · have hlen : 8 ≤ A.length + 1 := by
        have := (List.isPrefixOf_iff_prefix.mp h8').length_le
        simpa [httpsPre] using this
      have hA7 : A.length = 7 := by
        rcases Nat.lt_or_ge A.length 8 with hlt | hge
        · omega
        · exact absurd (isPrefixOf_of_concat _ _ _ (by simpa [httpsPre] using hge) h8') h8
      have heq : A ++ ['/'] = httpsPre := by
        refine ((List.isPrefixOf_iff_prefix.mp h8').eq_of_length ?_).symm
        simp [httpsPre, hA7]
      have hA : A = ['h', 't', 't', 'p', 's', ':', '/'] :=
        List.append_cancel_right
          (heq.trans (show httpsPre = ['h', 't', 't', 'p', 's', ':', '/'] ++ ['/'] from rfl))
      rw [hA]
      decide
    · rw [if_neg h8, if_neg h8']
      by_cases h7 : httpPre.isPrefixOf A = true
      · rw [if_pos h7, if_pos (isPrefixOf_concat_of _ _ _ h7)]
        have hlen : 7 ≤ A.length := by
          have := (List.isPrefixOf_iff_prefix.mp h7).length_le
          simpa [httpPre] using this
        rw [List.drop_append_eq_append_drop, Nat.sub_eq_zero_of_le hlen]
        rw [show List.drop 0 ['/'] = ['/'] from rfl, takeWhile_concat_slash]
      · by_cases h7' : httpPre.isPrefixOf (A ++ ['/']) = true
        · have hlen : 7 ≤ A.length + 1 := by
            have := (List.isPrefixOf_iff_prefix.mp h7').length_le
            simpa [httpPre] using this
          have hA6 : A.length = 6 := by
            rcases Nat.lt_or_ge A.length 7 with hlt | hge
            · omega
            · exact absurd (isPrefixOf_of_concat _ _ _ (by simpa [httpPre] using hge) h7') h7
          have heq : A ++ ['/'] = httpPre := by
            refine ((List.isPrefixOf_iff_prefix.mp h7').eq_of_length ?_).symm
            simp [httpPre, hA6]
          have hA : A = ['h', 't', 't', 'p', ':', '/'] :=
            List.append_cancel_right
              (heq.trans (show httpPre = ['h', 't', 't', 'p', ':', '/'] ++ ['/'] from rfl))
          rw [hA]
          decide
        · rw [if_neg h7, if_neg h7']

/-- Helper: the netloc is unchanged by the trailing-slash normalization. -/
theorem netlocCore_stripSlash (l : List Char) :
    netlocCore (stripSlashList l) = netlocCore l := by
  unfold stripSlashList
  by_cases hl : l.getLast? = some '/'
  · rw [if_pos hl]
    obtain ⟨m, rfl⟩ := List.getLast?_eq_some_iff.mp hl
    rw [List.dropLast_concat]
    unfold netlocCore
    rw [List.filter_append]
    rw [show List.filter (fun c => !badUrlChar c) ['/'] = ['/'] from rfl]
    rw [netlocOfClean_concat_slash]
  · rw [if_neg hl]

/-- Helper: `takeWhile` runs through a block that satisfies the predicate. -/
theorem takeWhile_append_all (d y : List Char)
    (hd : ∀ c ∈ d, (!netlocDelim c) = true) :
    (d ++ y).takeWhile (fun c => !netlocDelim c) =
      d ++ y.takeWhile (fun c => !netlocDelim c) := by
  induction d with
  | nil => rfl
  | cons c cs ih =>
      have hc := hd c (by simp)
      simp only [List.cons_append, List.takeWhile_cons, hc, if_true]
      rw [ih fun x hx => hd x (by simp [hx])]

/-- Helper: the netloc of a link rebuilt as `https://<domain><'/'-led tail>`
is exactly the domain, when the domain has no unsafe or delimiter
characters. -/
theorem netlocCore_rebuilt (d t : List Char)
    (hbad : ∀ c ∈ d, badUrlChar c = false)
    (hdel : ∀ c ∈ d, netlocDelim c = false)
    (ht : ∃ t', t = '/' :: t') :
    netlocCore (httpsPre ++ d ++ t) = d := by
  obtain ⟨t', rfl⟩ := ht
  unfold netlocCore
  have hfd : List.filter (fun c => !badUrlChar c) d = d :=
    List.filter_eq_self.mpr fun c hc => by simp [hbad c hc]
  have hsplit : List.filter (fun c => !badUrlChar c) (d ++ '/' :: t') =
      d ++ '/' :: List.filter (fun c => !badUrlChar c) t' := by
    rw [List.filter_append, hfd, List.filter_cons]
    simp [badUrlChar]
  rw [List.append_assoc, List.filter_append,
    show List.filter (fun c => !badUrlChar c) httpsPre = httpsPre from rfl, hsplit]
  unfold netlocOfClean
  have hpre : httpsPre.isPrefixOf
      (httpsPre ++ (d ++ '/' :: List.filter (fun c => !badUrlChar c) t')) = true := by
    rw [List.isPrefixOf_iff_prefix]
    exact List.prefix_append _ _
  rw [if_pos hpre,
    show (8 : Nat) = httpsPre.length from rfl, List.drop_left,
    takeWhile_append_all d _ (fun c hc => by simp [hdel c hc])]
  rw [show List.takeWhile (fun c => !netlocDelim c)
      ('/' :: List.filter (fun c => !badUrlChar c) t') = [] from rfl,
    List.append_nil]

/-- Helper: the kept links all come from cleaning one of the input links. -/
theorem mem_foldl_cleanStep (d : List Char) :
    ∀ (links : List String) (acc : List String) (u : String),
      u ∈ links.foldl (cleanStep d) acc →
      u ∈ acc ∨ ∃ l ∈ links, processLink d l.data = some u.data := by
  intro links
  induction links with
  | nil => intro acc u hu; exact Or.inl hu
  | cons l ls ih =>
      intro acc u hu
      rcases ih (cleanStep d acc l) u hu with hacc | ⟨l', hl', hp⟩
      · cases hp2 : processLink d l.data with
        | none =>
            have hstep : cleanStep d acc l = acc := by
              unfold cleanStep
              rw [hp2]
            rw [hstep] at hacc
            exact Or.inl hacc
        | some c =>
            have hstep : cleanStep d acc l = insertUniq ⟨c⟩ acc := by
              unfold cleanStep
              rw [hp2]
            rw [hstep] at hacc
            unfold insertUniq at hacc
            by_cases hc : (⟨c⟩ : String) ∈ acc
            · rw [if_pos hc] at hacc
              exact Or.inl hacc
            · rw [if_neg hc] at hacc
              rcases List.mem_append.mp hacc with h | h
              · exact Or.inl h
              · have hu' : u = ⟨c⟩ := by simpa using h
                subst hu'
                exact Or.inr ⟨l, List.mem_cons_self l ls, hp2⟩
      · exact Or.inr ⟨l', List.mem_cons_of_mem _ hl', hp⟩

/-- Helper: any link the cleaning loop keeps has netloc exactly the
domain. -/
theorem processLink_netloc (d ld u : List Char)
    (hbad : ∀ c ∈ d, badUrlChar c = false)
    (hdel : ∀ c ∈ d, netlocDelim c = false)
    (h : processLink d ld = some u) : netlocCore u = d := by
  unfold processLink at h
  split_ifs at h with h1 h2 h3 h4
  · obtain rfl := (Option.some.injEq _ _).mp h
    rw [netlocCore_stripSlash, h2]
  · obtain rfl := (Option.some.injEq _ _).mp h
    rw [netlocCore_stripSlash]
    apply netlocCore_rebuilt d ld hbad hdel
    cases ld with
    | nil => simp at h3
    | cons c t =>
        have hc : c = '/' := by simpa using h3
        exact ⟨t, by rw [hc]⟩
  · obtain rfl := (Option.some.injEq _ _).mp h
    rw [netlocCore_stripSlash]
    exact netlocCore_rebuilt d ('/' :: ld) hbad hdel ⟨ld, rfl⟩

/-- C10: every candidate returned by `get_domain_hyperlinks` has network
location exactly the local domain (for any domain free of URL delimiter and
unsafe characters); in particular a relative link with an unrecognized
non-HTTP scheme such as `javascript:` is not dropped but rewritten into
`https://<local_domain>/<link>`. -/
theorem claim_C10_same_domain (d : String) (links : List String)
    (hd : ∀ c ∈ d.data, badUrlChar c = false ∧ netlocDelim c = false) :
    (∀ u ∈ get_domain_hyperlinks d links, pyNetloc u = d) ∧
    get_domain_hyperlinks "gspp.berkeley.edu" ["javascript:void(0)"] =
      ["https://gspp.berkeley.edu/javascript:void(0)"] := by
  constructor
  · intro u hu
    unfold get_domain_hyperlinks at hu
    rcases mem_foldl_cleanStep d.data links [] u hu with h | ⟨l, _, hp⟩
    · simp at h
    · have hnet := processLink_netloc d.data l.data u.data
        (fun c hc => (hd c hc).1) (fun c hc => (hd c hc).2) hp
      show (⟨netlocCore u.data⟩ : String) = d
      rw [hnet]
  · decide

/-- C10, witnessed: a discovered link under the crawl domain is kept and its
netloc is the local domain. -/
theorem claim_C10_witness :
    pyNetloc "https://gspp.berkeley.edu/admissions" = "gspp.berkeley.edu" :=
  (claim_C10_same_domain "gspp.berkeley.edu"
      ["https://gspp.berkeley.edu/admissions/"] (by decide)).1
    "https://gspp.berkeley.edu/admissions" (by decide)

end WebScraper
